import Mathlib

/-!
Verification of the core of `preferredsDailyUpdate.py`: the FIGI check-digit
validator (`checkFIGIDigit`), the Bloomberg data-file parser
(`BbgDataFile.parseFileText`) and the column-projection query
(`BbgDataFile.getDataForFields`).

The Python code is shallowly embedded:
* strings are Lean `String`s and character classification (`isalpha`,
  `isalnum`, `islower`, `isdigit`) is modelled on the ASCII range, which is
  the range exercised by the file format;
* a Python expression that can raise an uncaught exception is modelled with
  `Option`/`Except`, the `none`/`.error` case standing for the exception;
* Python's `%` on a positive modulus is embedded as `Int.emod`, which agrees
  with it (both give the least non-negative representative).
-/

namespace PrefUpdate

/-! ### Character facts used throughout -/

theorem char_le_iff (a b : Char) : a ≤ b ↔ a.toNat ≤ b.toNat := by
  rw [Char.le_def]; rfl

theorem char_eq_iff (a b : Char) : a = b ↔ a.toNat = b.toNat := by
  constructor
  · intro h; rw [h]
  · intro h; exact Char.ext (UInt32.ext h)

theorem isDigit_iff (c : Char) : c.isDigit = true ↔ 48 ≤ c.toNat ∧ c.toNat ≤ 57 := by
  unfold Char.isDigit
  rw [Bool.and_eq_true, decide_eq_true_eq, decide_eq_true_eq]
  exact Iff.rfl

theorem isUpper_iff (c : Char) : c.isUpper = true ↔ 65 ≤ c.toNat ∧ c.toNat ≤ 90 := by
  unfold Char.isUpper
  rw [Bool.and_eq_true, decide_eq_true_eq, decide_eq_true_eq]
  exact Iff.rfl

theorem isLower_iff (c : Char) : c.isLower = true ↔ 97 ≤ c.toNat ∧ c.toNat ≤ 122 := by
  unfold Char.isLower
  rw [Bool.and_eq_true, decide_eq_true_eq, decide_eq_true_eq]
  exact Iff.rfl

theorem isAlpha_iff (c : Char) : c.isAlpha = true ↔
    (65 ≤ c.toNat ∧ c.toNat ≤ 90) ∨ (97 ≤ c.toNat ∧ c.toNat ≤ 122) := by
  unfold Char.isAlpha
  rw [Bool.or_eq_true, isUpper_iff, isLower_iff]

theorem isAlphanum_iff (c : Char) : c.isAlphanum = true ↔
    (65 ≤ c.toNat ∧ c.toNat ≤ 90) ∨ (97 ≤ c.toNat ∧ c.toNat ≤ 122) ∨
    (48 ≤ c.toNat ∧ c.toNat ≤ 57) := by
  unfold Char.isAlphanum
  rw [Bool.or_eq_true, isAlpha_iff, isDigit_iff]
  tauto

theorem toNat_ofNat_digit (n : Nat) (h : n < 10) :
    (Char.ofNat (48 + n)).toNat = 48 + n := by
  interval_cases n <;> rfl

/-! ### Checksum validator (`figiAlphaNumMap`, `digitSum`, `checkFIGIDigit`) -/

/-- `figiAlphaNumMap = dict(zip([chr(v) for v in range(65, 65+26)], range(10, 36)))`:
the dictionary maps only the uppercase letters `A`–`Z` to `10`–`35`; looking up
any other character raises `KeyError`, modelled by `none`. -/
def figiAlphaNumMap (c : Char) : Option Nat :=
  if 'A' ≤ c ∧ c ≤ 'Z' then some (c.toNat - 65 + 10) else none

/-- Fuel-driven helper for `digitSum`; `x` itself is always enough fuel. -/
def digitSumFuel : Nat → Nat → Nat
  | 0, x => x
  | f + 1, x => if x < 10 then x else digitSumFuel f (x / 10) + x % 10

/-- `digitSum(x) = sum(map(int, str(x)))`: the sum of the decimal digits of `x`. -/
def digitSum (x : Nat) : Nat := digitSumFuel x x

/-- Python `s.isalnum()` on the ASCII range: non-empty and every character
alphanumeric. -/
def pyIsAlnum (cs : List Char) : Bool := !cs.isEmpty && cs.all Char.isAlphanum

/-- The per-character conversion inside `checkFIGIDigit`:
`figiAlphaNumMap[ch] if ch.isalpha() else int(ch)`.  A lowercase letter is
alphabetic but absent from the dictionary, so the lookup raises `KeyError`
(`none`). -/
def charValPy (c : Char) : Option Nat :=
  if c.isAlpha then figiAlphaNumMap c else some (c.toNat - 48)

/-- The list comprehension `[figiAlphaNumMap[ch] if ch.isalpha() else int(ch)
for ch in figi11]`: the whole list, or `none` if any element raises. -/
def mapCharVals : List Char → Option (List Nat)
  | [] => some []
  | c :: cs =>
    match charValPy c, mapCharVals cs with
    | some v, some vs => some (v :: vs)
    | _, _ => none

/-- `checkFIGIDigit(figi)`.  Returns `some b` when the Python function returns
the boolean `b`, and `none` when it raises an uncaught `KeyError` (a lowercase
letter among the first 11 characters of an alphanumeric string).
`tmp = (10 - zz) % 10` always lies in `0..9`, so `str(tmp)` is the single
character `Char.ofNat (48 + tmp)`. -/
def checkFIGIDigit (figi : String) : Option Bool :=
  let cs := figi.toList
  if cs.length ≠ 12 then some false
  else if ¬ pyIsAlnum cs then some false
  else
    let checkDigit := cs.getLastD ' '
    let figi11 := cs.dropLast
    match mapCharVals figi11 with
    | none => none
    | some xx =>
      let yy := xx.enum.map (fun p => if p.1 % 2 = 1 then p.2 * 2 else p.2)
      let zz := (yy.map digitSum).sum
      let tmp := ((10 - (zz : Int)) % 10).toNat
      some (decide (Char.ofNat (48 + tmp) = checkDigit))

/-! ### String helpers mirroring the Python primitives -/

/-- Python `line.strip()`: drop whitespace from both ends. -/
def pyStrip (s : String) : String :=
  String.mk (((s.toList.dropWhile Char.isWhitespace).reverse.dropWhile
    Char.isWhitespace).reverse)

/-- Python `s.split(sep)` for a one-character separator, on the character
list: always non-empty, keeps empty tokens (`''.split('|') == ['']`,
`'a|'.split('|') == ['a','']`). -/
def splitChar (sep : Char) : List Char → List (List Char)
  | [] => [[]]
  | c :: rest =>
    match splitChar sep rest with
    | [] => [[]]
    | h :: t => if c = sep then [] :: h :: t else (c :: h) :: t

/-- Python `s.split(sep)` for a one-character separator. -/
def pySplit (sep : Char) (s : String) : List String :=
  (splitChar sep s.toList).map String.mk

/-- `needle` is a contiguous substring of `hay` (Python's `in` on strings). -/
def containsChars (needle : List Char) : List Char → Bool
  | [] => needle.isEmpty
  | c :: rest =>
    (needle.isPrefixOf (c :: rest)) || containsChars needle rest

/-- Decimal value of a digit string. -/
def digitsVal (l : List Char) : Nat :=
  l.foldl (fun a c => a * 10 + (c.toNat - 48)) 0

/-- Python `int(s)`: optional sign around a non-empty digit string after
stripping whitespace; anything else raises `ValueError` (`none`). -/
def pyToInt (s : String) : Option Int :=
  match (pyStrip s).toList with
  | '-' :: rest =>
    if rest ≠ [] ∧ rest.all Char.isDigit then some (-(digitsVal rest : Int)) else none
  | '+' :: rest =>
    if rest ≠ [] ∧ rest.all Char.isDigit then some ((digitsVal rest : Int)) else none
  | l => if l ≠ [] ∧ l.all Char.isDigit then some ((digitsVal l : Int)) else none

/-! ### The parser (`BbgDataFile.parseFileText`) -/

/-- Uncaught exceptions the parser can raise.  The first two are the explicit
`Exception`s of `parseFileText`; `fieldCountMismatch` is the explicit
`Exception('Insufficient values found in row')`; the remaining three are
Python runtime errors escaping from the code (`datarow[-1]` on an empty list,
`figiAlphaNumMap[ch]` on a lowercase letter, `int(...)` on a malformed
`DATARECORD` line, `str + list` in `getDataForFields`). -/
inductive PErr where
  | missingFileStart
  | unterminatedFile
  | fieldCountMismatch
  | indexError
  | keyError
  | valueError
  | typeError
deriving DecidableEq

/-- The candidate value sequence of a data line:
`data = line.split('|')[3:]; datarow = data[0:(len(data)-1)]`. -/
def candidateValues (line : String) : List String :=
  let data := (pySplit '|' line).drop 3
  data.take (data.length - 1)

/-- The loop of `parseFileText`, one constructor-per-line over the integer
state variable (`-1` awaiting `START-OF-FILE`, `0` neutral, `1` in fields,
`2` in data).  Returns the final state with the accumulated `fields` and
`dataList`, or the uncaught exception.  The unused parallel accumulators of
the source (`fieldsLoc`, built by `dict(zip(...))` at `END-OF-FIELDS` and
never raising, and `dataDict`) do not affect the returned pair and are not
carried. -/
def parseLoop (state : Int) (fields : List String)
    (dataList : List (List (String × String))) :
    List String → Except PErr (Int × List String × List (List (String × String)))
  | [] => .ok (state, fields, dataList)
  | rawLine :: rest =>
    let line := pyStrip rawLine
    if state = -1 ∧ line = "START-OF-FILE" then
      parseLoop 0 fields dataList rest
    else if state = 0 then
      if line = "START-OF-FIELDS" then
        parseLoop 1 fields dataList rest
      else if line = "START-OF-DATA" then
        parseLoop 2 fields dataList rest
      else if containsChars "DATARECORD".toList line.toList then
        match (pySplit '=' line).get? 1 with
        | none => .error .indexError
        | some t =>
          match pyToInt t with
          | none => .error .valueError
          | some _ => parseLoop 0 fields dataList rest
      else
        parseLoop 0 fields dataList rest
    else if state = 1 then
      if line = "END-OF-FIELDS" then
        parseLoop 0 fields dataList rest
      else
        parseLoop 1 (fields ++ [line]) dataList rest
    else if state = 2 then
      if line = "END-OF-DATA" then
        parseLoop 0 fields dataList rest
      else
        let datarow := candidateValues line
        if datarow.length ≠ fields.length then .error .fieldCountMismatch
        else
          match datarow.getLast? with
          | none => .error .indexError
          | some figi =>
            match checkFIGIDigit figi with
            | none => .error .keyError
            | some false => parseLoop 2 fields dataList rest
            | some true =>
              parseLoop 2 fields (dataList ++ [fields.zip datarow]) rest
    else
      parseLoop state fields dataList rest

/-- `BbgDataFile.parseFileText(lines)`: run the loop from state `-1`, then the
two structural checks, returning `(fields, dataList)`. -/
def parseFileText (lines : List String) :
    Except PErr (List String × List (List (String × String))) :=
  match parseLoop (-1) [] [] lines with
  | .error e => .error e
  | .ok (state, fields, dataList) =>
    if state = -1 then .error .missingFileStart
    else if state ≠ 0 then .error .unterminatedFile
    else .ok (fields, dataList)

/-! ### The query surface (`BbgDataFile.getDataForFields`) -/

/-- `goodFields = [True if f in self.fields else False for f in columns]`. -/
def goodFields (fields columns : List String) : List Bool :=
  columns.map (fun f => decide (f ∈ fields))

/-- The list comprehension inside the `raise`:
`[columns[i] for i in range(len(columns)) if not goodFields[i]]` — the full
list of requested-but-undeclared names. -/
def offendingColumns (fields columns : List String) : List String :=
  (List.range columns.length).filterMap (fun i =>
    if (goodFields fields columns).getD i true then none else some (columns.getD i ""))

/-- Python `row[k]` on the dict built by `dict(zip(fields, datarow))`: the
value of the last pair with key `k`, or `KeyError` (`none`). -/
def dictGet (row : List (String × String)) (k : String) : Option String :=
  ((row.filter (fun p => p.1 = k)).getLast?).map Prod.snd

/-- `BbgDataFile.getDataForFields(columns)`.  When some requested column is
missing, the source evaluates `'Data not available ...' + [offending list]`,
and that `str + list` concatenation itself raises `TypeError` — the intended
`Exception` carrying `offendingColumns` is never constructed. -/
def getDataForFields (fields : List String)
    (dataList : List (List (String × String))) (columns : List String) :
    Except PErr (List (List String)) :=
  if ¬ (goodFields fields columns).all (· = true) then
    .error .typeError
  else
    match dataList.mapM (fun row => columns.mapM (fun k => dictGet row k)) with
    | none => .error .keyError
    | some out => .ok out

/-! ### Synthetic well-formed input files (for the round-trip claims) -/

/-- `|`-join a token list, one trailing separator after every token; a line
built from tokens this way reads back as `tokens ++ [""]` under `split('|')`. -/
def sepJoin (toks : List (List Char)) : List Char :=
  toks.foldr (fun t acc => t ++ '|' :: acc) []

/-- A data line with three metadata tokens and the given values, ending in the
delimiter, as the format prescribes. -/
def mkDataLine (vals : List String) : String :=
  String.mk (sepJoin ([['m', '1'], ['m', '2'], ['m', '3']] ++ vals.map String.toList))

/-- A synthetic well-formed file: preamble marker, fields section, data
section. -/
def mkFile (fields : List String) (rows : List (List String)) : List String :=
  "START-OF-FILE" :: "START-OF-FIELDS" :: fields ++
    ("END-OF-FIELDS" :: "START-OF-DATA" :: rows.map mkDataLine ++ ["END-OF-DATA"])

/-! ### Spec-side statement of the record decoder's token handling (claim C7) -/

/-- Spec: "split the line on the pipe character; discard the first three
tokens and the final trailing empty token produced by a line ending in a
delimiter". -/
def specCandidate (line : String) : List String :=
  let toks := (pySplit '|' line).drop 3
  if line.toList.getLastD ' ' = '|' then toks.dropLast else toks

/-! ### Spec-side statement of the check-digit algorithm (for claim C1).
These definitions follow the specification's words, to be compared with the
embedding of the source above. -/

/-- Spec: "mapping each digit to itself and each letter A-Z to 10-35"
(total on the claim's domain of digits and uppercase letters). -/
def specCharVal (c : Char) : Nat :=
  if c.isDigit then c.toNat - 48 else c.toNat - 65 + 10

/-- Spec: the check digit of an 11-character body — double the value at every
odd 0-based index, sum the decimal digits of every resulting integer into a
grand total `T`, and take `(10 - (T mod 10)) mod 10`. -/
def specCheckDigit (body : List Char) : Nat :=
  let vals := body.map specCharVal
  let doubled := vals.enum.map (fun p => if p.1 % 2 = 1 then 2 * p.2 else p.2)
  let total := (doubled.map (fun n => (Nat.digits 10 n).sum)).sum
  (10 - total % 10) % 10

/-! ### Lemmas about the checksum -/

/-- `digitSumFuel` computes the digit sum once the fuel dominates the argument. -/
theorem digitSumFuel_eq (f : Nat) : ∀ x : Nat, x ≤ f →
    digitSumFuel f x = (Nat.digits 10 x).sum := by
  induction f with
  | zero =>
    intro x hx
    interval_cases x
    simp [digitSumFuel]
  | succ f ih =>
    intro x hx
    by_cases h10 : x < 10
    · rcases Nat.eq_zero_or_pos x with hz | hp
      · subst hz; simp [digitSumFuel]
      · have hdig : Nat.digits 10 x = [x % 10] := by
          rw [Nat.digits_def' (by norm_num : (1:Nat) < 10) hp]
          have hdiv : x / 10 = 0 := Nat.div_eq_of_lt h10
          simp [hdiv]
        simp [digitSumFuel, h10, hdig, Nat.mod_eq_of_lt h10]
    · have hp : 0 < x := by omega
      have hlt : x / 10 < x := Nat.div_lt_self hp (by norm_num)
      have hfuel : x / 10 ≤ f := by omega
      have hdig : Nat.digits 10 x = x % 10 :: Nat.digits 10 (x / 10) :=
        Nat.digits_def' (by norm_num : (1:Nat) < 10) hp
      simp [digitSumFuel, h10, hdig, ih _ hfuel]
      omega

/-- `digitSum x` is the sum of the decimal digits of `x`. -/
theorem digitSum_eq_digits_sum (x : Nat) : digitSum x = (Nat.digits 10 x).sum :=
  digitSumFuel_eq x x le_rfl

/-- Python's `(10 - zz) % 10` (non-negative `%`) written over `Nat`. -/
theorem toNat_ten_sub_emod (z : Nat) :
    ((10 - (z : Int)) % 10).toNat = (10 - z % 10) % 10 := by
  omega

theorem ten_sub_emod_lt (z : Nat) : ((10 - (z : Int)) % 10).toNat < 10 := by
  omega

/-- The spec's check digit, with the digit sums written via the executable
`digitSum` and the doubling written the way the source writes it. -/
theorem specCheckDigit_eq_digitSum (body : List Char) :
    specCheckDigit body =
      (10 - (((body.map specCharVal).enum.map
          (fun p => if p.1 % 2 = 1 then p.2 * 2 else p.2)).map digitSum).sum % 10) % 10 := by
  unfold specCheckDigit
  dsimp only
  have h1 : (body.map specCharVal).enum.map
        (fun p => if p.1 % 2 = 1 then 2 * p.2 else p.2) =
      (body.map specCharVal).enum.map
        (fun p => if p.1 % 2 = 1 then p.2 * 2 else p.2) := by
    apply List.map_congr_left
    intro p _
    by_cases hp : p.1 % 2 = 1 <;> simp [hp, Nat.mul_comm]
  have h2 : ((body.map specCharVal).enum.map
        (fun p => if p.1 % 2 = 1 then p.2 * 2 else p.2)).map
          (fun n => (Nat.digits 10 n).sum) =
      ((body.map specCharVal).enum.map
        (fun p => if p.1 % 2 = 1 then p.2 * 2 else p.2)).map digitSum := by
    apply List.map_congr_left
    intro n _
    exact (digitSum_eq_digits_sum n).symm
  rw [h1, h2]

theorem upper_not_digit {c : Char} (hu : 'A' ≤ c ∧ c ≤ 'Z') : c.isDigit = false := by
  have h1 : 65 ≤ c.toNat := by
    have := (char_le_iff 'A' c).mp hu.1
    simpa using this
  cases hd : c.isDigit
  · rfl
  · exfalso
    have := (isDigit_iff c).mp hd
    omega

/-- On a list of digits and uppercase letters, the per-character conversion of
the source never raises and agrees with the spec's mapping. -/
theorem mapCharVals_eq_spec (l : List Char)
    (h : ∀ c ∈ l, c.isDigit = true ∨ ('A' ≤ c ∧ c ≤ 'Z')) :
    mapCharVals l = some (l.map specCharVal) := by
  induction l with
  | nil => simp [mapCharVals]
  | cons c l ih =>
    have hc := h c (List.mem_cons_self c l)
    have hrest : ∀ d ∈ l, d.isDigit = true ∨ ('A' ≤ d ∧ d ≤ 'Z') :=
      fun d hd => h d (List.mem_cons_of_mem c hd)
    have hval : charValPy c = some (specCharVal c) := by
      rcases hc with hd | hu
      · have hrange := (isDigit_iff c).mp hd
        have halpha : c.isAlpha = false := by
          cases ha : c.isAlpha
          · rfl
          · exfalso
            have := (isAlpha_iff c).mp ha
            omega
        simp [charValPy, halpha, specCharVal, hd]
      · have hrange : 65 ≤ c.toNat ∧ c.toNat ≤ 90 := by
          constructor
          · have := (char_le_iff 'A' c).mp hu.1; simpa using this
          · have := (char_le_iff c 'Z').mp hu.2; simpa using this
        have halpha : c.isAlpha = true := (isAlpha_iff c).mpr (Or.inl hrange)
        simp [charValPy, halpha, figiAlphaNumMap, hu.1, hu.2, specCharVal,
          upper_not_digit hu]
    simp [mapCharVals, hval, ih hrest]

/-- On a string of digits and uppercase letters of length 12, `checkFIGIDigit`
computes exactly the spec's check digit and compares it to the last character. -/
theorem checkFIGIDigit_eval (s : String)
    (h12 : s.toList.length = 12)
    (hok : ∀ c ∈ s.toList, c.isDigit = true ∨ ('A' ≤ c ∧ c ≤ 'Z')) :
    checkFIGIDigit s =
      some (decide (Char.ofNat (48 + specCheckDigit s.toList.dropLast) =
        s.toList.getLastD ' ')) := by
  have hne : s.toList.isEmpty = false := by
    cases hcs : s.toList
    · rw [hcs] at h12; simp at h12
    · simp [hcs]
  have halnum : pyIsAlnum s.toList = true := by
    unfold pyIsAlnum
    rw [hne]
    simp only [Bool.not_false, Bool.true_and]
    rw [List.all_eq_true]
    intro c hcmem
    rcases hok c hcmem with hd | hu
    · exact (isAlphanum_iff c).mpr (Or.inr (Or.inr ((isDigit_iff c).mp hd)))
    · have hrange : 65 ≤ c.toNat ∧ c.toNat ≤ 90 := by
        constructor
        · have := (char_le_iff 'A' c).mp hu.1; simpa using this
        · have := (char_le_iff c 'Z').mp hu.2; simpa using this
      exact (isAlphanum_iff c).mpr (Or.inl hrange)
  have hmap : mapCharVals s.toList.dropLast =
      some (s.toList.dropLast.map specCharVal) :=
    mapCharVals_eq_spec _ (fun c hc => hok c (List.dropLast_subset _ hc))
  unfold checkFIGIDigit
  rw [specCheckDigit_eq_digitSum]
  simp only [h12, ne_eq, not_true_eq_false, if_false, halnum, not_true_eq_false,
    Bool.true_eq_false, if_false, hmap, toNat_ten_sub_emod]

/-- C1: on the claim's domain the validator accepts exactly when the last
character is the digit character of the spec's check digit of the first 11. -/
theorem checkFIGIDigit_correct (s : String)
    (h12 : s.toList.length = 12)
    (hok : ∀ c ∈ s.toList, c.isDigit = true ∨ ('A' ≤ c ∧ c ≤ 'Z')) :
    checkFIGIDigit s = some true ↔
      s.toList.getLastD ' ' = Char.ofNat (48 + specCheckDigit s.toList.dropLast) := by
  rw [checkFIGIDigit_eval s h12 hok]
  constructor
  · intro h
    have := Option.some.inj h
    exact (of_decide_eq_true this).symm
  · intro h
    rw [decide_eq_true (h.symm)]

/-! ### Lemmas about the string helpers and the synthetic files -/

theorem string_mk_toList (s : String) : String.mk s.toList = s := rfl

theorem splitChar_ne_nil (sep : Char) (l : List Char) : splitChar sep l ≠ [] := by
  induction l with
  | nil => simp [splitChar]
  | cons c rest ih =>
    obtain ⟨h, t, hsp⟩ : ∃ h t, splitChar sep rest = h :: t := by
      cases hq : splitChar sep rest with
      | nil => exact absurd hq ih
      | cons a b => exact ⟨a, b, rfl⟩
    rw [splitChar, hsp]
    by_cases hc : c = sep <;> simp [hc]

theorem splitChar_append (sep : Char) (v rest : List Char) (hv : sep ∉ v) :
    splitChar sep (v ++ sep :: rest) = v :: splitChar sep rest := by
  induction v with
  | nil =>
    obtain ⟨h, t, hsp⟩ : ∃ h t, splitChar sep rest = h :: t := by
      cases hq : splitChar sep rest with
      | nil => exact absurd hq (splitChar_ne_nil sep rest)
      | cons a b => exact ⟨a, b, rfl⟩
    rw [List.nil_append, splitChar, hsp]
    simp [hsp]
  | cons c v ih =>
    have hc : c ≠ sep := fun h => hv (h ▸ List.mem_cons_self c v)
    have hv' : sep ∉ v := fun h => hv (List.mem_cons_of_mem c h)
    rw [List.cons_append, splitChar, ih hv']
    simp [hc]

theorem splitChar_sepJoin (toks : List (List Char)) (h : ∀ t ∈ toks, '|' ∉ t) :
    splitChar '|' (sepJoin toks) = toks ++ [[]] := by
  induction toks with
  | nil => simp [sepJoin, splitChar]
  | cons t toks ih =>
    have ht := h t (List.mem_cons_self t toks)
    have hrest := fun u hu => h u (List.mem_cons_of_mem t hu)
    show splitChar '|' (t ++ '|' :: sepJoin toks) = (t :: toks) ++ [[]]
    rw [splitChar_append '|' t (sepJoin toks) ht, ih hrest, List.cons_append]

theorem sepJoin_concat (toks : List (List Char)) (h : toks ≠ []) :
    ∃ mid, sepJoin toks = mid ++ ['|'] := by
  induction toks with
  | nil => exact absurd rfl h
  | cons t toks ih =>
    cases toks with
    | nil => exact ⟨t, rfl⟩
    | cons u us =>
      obtain ⟨mid, hm⟩ := ih (by simp)
      refine ⟨t ++ '|' :: mid, ?_⟩
      show t ++ '|' :: sepJoin (u :: us) = (t ++ '|' :: mid) ++ ['|']
      rw [hm]
      simp

theorem mkDataLine_shape (vals : List String) :
    ∃ mid, (mkDataLine vals).toList = 'm' :: mid ++ ['|'] := by
  obtain ⟨mid, hm⟩ :=
    sepJoin_concat ([['m', '2'], ['m', '3']] ++ vals.map String.toList) (by simp)
  refine ⟨'1' :: '|' :: mid, ?_⟩
  show sepJoin (([['m', '1'], ['m', '2'], ['m', '3']] ++ vals.map String.toList)) =
    'm' :: ('1' :: '|' :: mid) ++ ['|']
  show ['m', '1'] ++ '|' :: sepJoin ([['m', '2'], ['m', '3']] ++ vals.map String.toList) =
    'm' :: ('1' :: '|' :: mid) ++ ['|']
  rw [hm]
  simp

theorem dropWhile_cons_false {p : Char → Bool} {a : Char} {l : List Char}
    (h : p a = false) : List.dropWhile p (a :: l) = a :: l := by
  simp [List.dropWhile, h]

theorem pyStrip_sandwich (a b : Char) (mid : List Char)
    (ha : a.isWhitespace = false) (hb : b.isWhitespace = false) :
    pyStrip (String.mk ((a :: mid) ++ [b])) = String.mk ((a :: mid) ++ [b]) := by
  unfold pyStrip
  congr 1
  have htl : (String.mk ((a :: mid) ++ [b])).toList = (a :: mid) ++ [b] := rfl
  rw [htl, List.cons_append, dropWhile_cons_false ha]
  rw [show (a :: (mid ++ [b])).reverse = b :: (mid.reverse ++ [a]) from by simp]
  rw [dropWhile_cons_false hb]
  simp

theorem pyStrip_mkDataLine (vals : List String) :
    pyStrip (mkDataLine vals) = mkDataLine vals := by
  obtain ⟨mid, hm⟩ := mkDataLine_shape vals
  have h1 : mkDataLine vals = String.mk ('m' :: mid ++ ['|']) := by
    rw [← hm, string_mk_toList]
  rw [h1]
  exact pyStrip_sandwich 'm' '|' mid (by decide) (by decide)

theorem mkDataLine_ne_eod (vals : List String) : mkDataLine vals ≠ "END-OF-DATA" := by
  obtain ⟨mid, hm⟩ := mkDataLine_shape vals
  intro h
  have : (mkDataLine vals).toList = "END-OF-DATA".toList := by rw [h]
  rw [hm] at this
  have hhead : 'm' = 'E' := by
    have := congrArg (fun l => l.headD ' ') this
    simpa using this
  exact absurd hhead (by decide)

theorem pySplit_mkDataLine (vals : List String)
    (h : ∀ v ∈ vals, '|' ∉ v.toList) :
    pySplit '|' (mkDataLine vals) = ["m1", "m2", "m3"] ++ vals ++ [""] := by
  unfold pySplit
  have htl : (mkDataLine vals).toList =
      sepJoin ([['m', '1'], ['m', '2'], ['m', '3']] ++ vals.map String.toList) := rfl
  rw [htl, splitChar_sepJoin]
  · simp only [List.map_append, List.map_map]
    have hvals : List.map (String.mk ∘ String.toList) vals = vals := by
      have hcongr : ∀ v ∈ vals, (String.mk ∘ String.toList) v = id v := by
        intro v _
        simp [string_mk_toList]
      rw [List.map_congr_left hcongr, List.map_id]
    rw [hvals]
    rfl
  · intro t ht
    rcases List.mem_append.mp ht with hmeta | hval
    · fin_cases hmeta <;> decide
    · obtain ⟨v, hv, rfl⟩ := List.mem_map.mp hval
      exact h v hv

theorem candidateValues_mkDataLine (vals : List String)
    (h : ∀ v ∈ vals, '|' ∉ v.toList) :
    candidateValues (mkDataLine vals) = vals := by
  unfold candidateValues
  rw [pySplit_mkDataLine vals h]
  have hdrop : ((["m1", "m2", "m3"] ++ vals) ++ [""]).drop 3 = vals ++ [""] := by
    rw [List.append_assoc]
    have := List.drop_left ["m1", "m2", "m3"] (vals ++ [""])
    simpa using this
  rw [hdrop]
  show List.take ((vals ++ [""]).length - 1) (vals ++ [""]) = vals
  have hlen : (vals ++ [""]).length - 1 = vals.length := by simp
  rw [hlen]
  exact List.take_left vals [""]

/-! ### Lemmas about the parser loop -/

theorem getLast?_of_ne_nil (l : List String) (h : l ≠ []) :
    l.getLast? = some (l.getLastD "") := by
  obtain ⟨x, hx⟩ := Option.isSome_iff_exists.mp (List.getLast?_isSome.mpr h)
  rw [hx, List.getLastD_eq_getLast?, hx]
  rfl

theorem step_sof (f : List String) (d : List (List (String × String)))
    (rest : List String) :
    parseLoop (-1) f d ("START-OF-FILE" :: rest) = parseLoop 0 f d rest := rfl

theorem step_sofields (f : List String) (d : List (List (String × String)))
    (rest : List String) :
    parseLoop 0 f d ("START-OF-FIELDS" :: rest) = parseLoop 1 f d rest := rfl

theorem step_eofields (f : List String) (d : List (List (String × String)))
    (rest : List String) :
    parseLoop 1 f d ("END-OF-FIELDS" :: rest) = parseLoop 0 f d rest := rfl

theorem step_sodata (f : List String) (d : List (List (String × String)))
    (rest : List String) :
    parseLoop 0 f d ("START-OF-DATA" :: rest) = parseLoop 2 f d rest := rfl

theorem step_eodata (f : List String) (d : List (List (String × String)))
    (rest : List String) :
    parseLoop 2 f d ("END-OF-DATA" :: rest) = parseLoop 0 f d rest := rfl

/-- Processing the fields section: each line is appended to the accumulated
field list, in order. -/
theorem parseLoop_fields (dl : List (List (String × String))) :
    ∀ (fs accF rest : List String),
      (∀ f ∈ fs, pyStrip f = f ∧ f ≠ "END-OF-FIELDS") →
      parseLoop 1 accF dl (fs ++ rest) = parseLoop 1 (accF ++ fs) dl rest := by
  intro fs
  induction fs with
  | nil => intro accF rest _; simp
  | cons f fs ih =>
    intro accF rest h
    have hf := h f (List.mem_cons_self f fs)
    have hrest : ∀ g ∈ fs, pyStrip g = g ∧ g ≠ "END-OF-FIELDS" :=
      fun g hg => h g (List.mem_cons_of_mem f hg)
    rw [List.cons_append]
    simp only [parseLoop, hf.1]
    simp only [eq_false (by decide : ¬((1 : Int) = -1)),
      eq_false (by decide : ¬((1 : Int) = 0)), eq_true (rfl : (1 : Int) = 1),
      false_and, if_false, if_true, eq_false hf.2]
    rw [ih (accF ++ [f]) rest hrest, List.append_assoc]
    rfl

/-- Processing the data section: rows with a valid check digit are zipped and
appended, rows with an invalid one are skipped, in file order. -/
theorem parseLoop_data (fields : List String) :
    ∀ (rs : List (List String)) (dl : List (List (String × String)))
      (rest : List String),
      (∀ r ∈ rs, r.length = fields.length ∧ 0 < r.length ∧
        (∀ v ∈ r, '|' ∉ v.toList) ∧
        ∃ b, checkFIGIDigit (r.getLastD "") = some b) →
      parseLoop 2 fields dl (rs.map mkDataLine ++ rest) =
        parseLoop 2 fields
          (dl ++ (rs.filter
            (fun r => decide (checkFIGIDigit (r.getLastD "") = some true))).map
              (fun r => fields.zip r)) rest := by
  intro rs
  induction rs with
  | nil => intro dl rest _; simp
  | cons r rs ih =>
    intro dl rest h
    obtain ⟨hlen, hpos, hpipe, b, hb⟩ := h r (List.mem_cons_self r rs)
    have hrest := fun q hq => h q (List.mem_cons_of_mem r hq)
    have hne : r ≠ [] := by
      intro hr
      rw [hr] at hpos
      simp at hpos
    rw [List.map_cons, List.cons_append]
    simp only [parseLoop, pyStrip_mkDataLine]
    simp only [eq_false (by decide : ¬((2 : Int) = -1)),
      eq_false (by decide : ¬((2 : Int) = 0)),
      eq_false (by decide : ¬((2 : Int) = 1)), eq_true (rfl : (2 : Int) = 2),
      false_and, if_false, if_true, eq_false (mkDataLine_ne_eod r),
      candidateValues_mkDataLine r hpipe, hlen, ne_eq, eq_self_iff_true,
      not_true, getLast?_of_ne_nil r hne, hb]
    cases b with
    | false =>
      dsimp only
      rw [ih dl rest hrest, List.filter_cons,
        if_neg (by rw [hb]; simp)]
    | true =>
      dsimp only
      rw [ih (dl ++ [fields.zip r]) rest hrest, List.filter_cons,
        if_pos (by rw [hb]; simp)]
      simp

/-- A data row whose candidate count disagrees with the field count aborts the
loop with the `Insufficient values found in row` exception. -/
theorem parseLoop_data_abort (fields : List String) (bad : List String)
    (dl : List (List (String × String))) (rest : List String)
    (hbadlen : bad.length ≠ fields.length) (hbadp : ∀ v ∈ bad, '|' ∉ v.toList) :
    parseLoop 2 fields dl (mkDataLine bad :: rest) = .error .fieldCountMismatch := by
  simp only [parseLoop, pyStrip_mkDataLine]
  simp only [eq_false (by decide : ¬((2 : Int) = -1)),
    eq_false (by decide : ¬((2 : Int) = 0)),
    eq_false (by decide : ¬((2 : Int) = 1)), eq_true (rfl : (2 : Int) = 2),
    false_and, if_false, if_true, eq_false (mkDataLine_ne_eod bad),
    candidateValues_mkDataLine bad hbadp]
  rw [if_pos hbadlen]

/-- Master round-trip lemma: a synthetic file parses to the declared fields and
the zipped rows whose identifiers validate, in file order. -/
theorem parseFileText_mkFile (fields : List String) (rows : List (List String))
    (hf : ∀ f ∈ fields, pyStrip f = f ∧ f ≠ "END-OF-FIELDS")
    (hr : ∀ r ∈ rows, r.length = fields.length ∧ 0 < r.length ∧
      (∀ v ∈ r, '|' ∉ v.toList) ∧
      ∃ b, checkFIGIDigit (r.getLastD "") = some b) :
    parseFileText (mkFile fields rows) =
      .ok (fields, (rows.filter
        (fun r => decide (checkFIGIDigit (r.getLastD "") = some true))).map
          (fun r => fields.zip r)) := by
  unfold parseFileText mkFile
  simp only [List.cons_append, List.append_assoc]
  rw [step_sof, step_sofields, parseLoop_fields [] fields [] _ hf,
    List.nil_append, step_eofields, step_sodata,
    parseLoop_data fields rows [] ["END-OF-DATA"] hr, List.nil_append,
    step_eodata]
  rfl

/-! ### Lemmas about lowercase letters in the validator (claim C5) -/

theorem charValPy_lower_none (c : Char) (hlow : c.isLower = true) :
    charValPy c = none := by
  have hrange := (isLower_iff c).mp hlow
  have halpha : c.isAlpha = true := (isAlpha_iff c).mpr (Or.inr hrange)
  have hnotup : ¬('A' ≤ c ∧ c ≤ 'Z') := by
    rintro ⟨_, h2⟩
    have h90 : c.toNat ≤ ('Z' : Char).toNat := (char_le_iff c 'Z').mp h2
    have hz : ('Z' : Char).toNat = 90 := rfl
    omega
  simp [charValPy, halpha, figiAlphaNumMap, hnotup]

theorem mapCharVals_none_of_lower (l : List Char) (c : Char) (hc : c ∈ l)
    (hlow : c.isLower = true) : mapCharVals l = none := by
  induction l with
  | nil => cases hc
  | cons d l ih =>
    rcases List.mem_cons.mp hc with rfl | hmem
    · cases hrec : mapCharVals l <;>
        simp [mapCharVals, charValPy_lower_none c hlow, hrec]
    · have hrec := ih hmem
      cases hcd : charValPy d <;> simp [mapCharVals, hcd, hrec]

theorem digit_or_upper_of_alnum_not_lower (c : Char) (h1 : c.isAlphanum = true)
    (h2 : c.isLower = false) : c.isDigit = true ∨ ('A' ≤ c ∧ c ≤ 'Z') := by
  have hr := (isAlphanum_iff c).mp h1
  have h2' : ¬(97 ≤ c.toNat ∧ c.toNat ≤ 122) := by
    intro hc
    rw [(isLower_iff c).mpr hc] at h2
    cases h2
  rcases hr with hu | hl | hd
  · exact Or.inr ⟨(char_le_iff 'A' c).mpr hu.1, (char_le_iff c 'Z').mpr hu.2⟩
  · exact absurd hl h2'
  · exact Or.inl ((isDigit_iff c).mpr hd)

theorem digitChar_ne_lower (k : Nat) (hk : k < 10) (c : Char)
    (hc : c.isLower = true) : Char.ofNat (48 + k) ≠ c := by
  intro hcon
  have hnat := (char_eq_iff _ _).mp hcon
  rw [toNat_ofNat_digit k hk] at hnat
  have h97 := ((isLower_iff c).mp hc).1
  omega

/-! ### Lemmas about the pre-`START-OF-FILE` behaviour (claim C6) -/

theorem parseLoop_skip_neg (lines : List String) :
    ∀ (f : List String) (d : List (List (String × String))),
      (∀ l ∈ lines, pyStrip l ≠ "START-OF-FILE") →
      parseLoop (-1) f d lines = .ok (-1, f, d) := by
  induction lines with
  | nil => intro f d _; rfl
  | cons l rest ih =>
    intro f d h
    have hl := h l (List.mem_cons_self l rest)
    have hrest := fun g hg => h g (List.mem_cons_of_mem l hg)
    simp only [parseLoop]
    simp only [eq_true (rfl : (-1 : Int) = -1), true_and, eq_false hl,
      eq_false (by decide : ¬((-1 : Int) = 0)),
      eq_false (by decide : ¬((-1 : Int) = 1)),
      eq_false (by decide : ¬((-1 : Int) = 2)), and_false, if_false]
    exact ih f d hrest

theorem parseLoop_no_mfs (lines : List String) :
    ∀ (st : Int) (f : List String) (d : List (List (String × String))),
      parseLoop st f d lines ≠ .error .missingFileStart := by
  induction lines with
  | nil =>
    intro st f d hcon
    simp [parseLoop] at hcon
  | cons l rest ih =>
    intro st f d hcon
    simp only [parseLoop] at hcon
    repeat' split at hcon
    all_goals first
      | exact ih _ _ _ hcon
      | simp at hcon

theorem parseLoop_ok_nonneg (lines : List String) :
    ∀ (st : Int) (f : List String) (d : List (List (String × String)))
      (r : Int × List String × List (List (String × String))),
      0 ≤ st → parseLoop st f d lines = .ok r → 0 ≤ r.1 := by
  induction lines with
  | nil =>
    intro st f d r hst h
    simp only [parseLoop] at h
    obtain rfl : (st, f, d) = r := Except.ok.inj h
    exact hst
  | cons l rest ih =>
    intro st f d r hst h
    simp only [parseLoop] at h
    repeat' split at h
    all_goals first
      | exact ih _ _ _ _ (by omega) h
      | simp at h

theorem parseFileText_skip (l : String) (rest : List String)
    (hl : pyStrip l ≠ "START-OF-FILE") :
    parseFileText (l :: rest) = parseFileText rest := by
  have hstep : parseLoop (-1) [] [] (l :: rest) = parseLoop (-1) [] [] rest := by
    simp only [parseLoop]
    simp only [eq_true (rfl : (-1 : Int) = -1), true_and, eq_false hl,
      eq_false (by decide : ¬((-1 : Int) = 0)),
      eq_false (by decide : ¬((-1 : Int) = 1)),
      eq_false (by decide : ¬((-1 : Int) = 2)), and_false, if_false]
  unfold parseFileText
  rw [hstep]

/-! ### Claim C6 -/

/-- Refutes C6 as stated: a line other than `START-OF-FILE` seen while
awaiting the start marker is not fatal — this file opens with `junk` and
still parses successfully. -/
theorem awaitingStart_nonfatal_cex :
    parseFileText ["junk", "START-OF-FILE", "START-OF-FIELDS", "F1",
      "END-OF-FIELDS", "START-OF-DATA", "END-OF-DATA"] = .ok (["F1"], []) ∧
    parseFileText ["junk", "START-OF-FILE", "START-OF-FIELDS", "F1",
      "END-OF-FIELDS", "START-OF-DATA", "END-OF-DATA"] ≠
      .error .missingFileStart := by
  have h1 : parseFileText ["junk", "START-OF-FILE", "START-OF-FIELDS", "F1",
      "END-OF-FIELDS", "START-OF-DATA", "END-OF-DATA"] = .ok (["F1"], []) := rfl
  exact ⟨h1, fun hcon => by rw [h1] at hcon; cases hcon⟩

/-- C6 (amended): while awaiting `START-OF-FILE`, any other line is silently
skipped, not fatal; the parse fails with `MissingFileStart` exactly when no
input line strips to `START-OF-FILE`. -/
theorem parseFileText_mfs_iff (lines : List String) :
    parseFileText lines = .error .missingFileStart ↔
      ∀ l ∈ lines, pyStrip l ≠ "START-OF-FILE" := by
  induction lines with
  | nil =>
    constructor
    · intro _ l hl
      exact absurd hl (List.not_mem_nil l)
    · intro _
      rfl
  | cons l rest ih =>
    by_cases hl : pyStrip l = "START-OF-FILE"
    · constructor
      · intro h
        exfalso
        have hstep : parseLoop (-1) [] [] (l :: rest) = parseLoop 0 [] [] rest := by
          simp only [parseLoop]
          simp only [hl, eq_true (rfl : (-1 : Int) = -1), true_and]
          simp
        unfold parseFileText at h
        rw [hstep] at h
        cases hres : parseLoop 0 [] [] rest with
        | error e =>
          rw [hres] at h
          dsimp only at h
          have he : e = PErr.missingFileStart := Except.error.inj h
          exact parseLoop_no_mfs rest 0 [] [] (by rw [hres, he])
        | ok r =>
          obtain ⟨r1, rf, rd⟩ := r
          rw [hres] at h
          dsimp only at h
          have hr1 : (0 : Int) ≤ r1 := by
            have := parseLoop_ok_nonneg rest 0 [] [] (r1, rf, rd) (le_refl 0) hres
            simpa using this
          rw [if_neg (by omega : ¬(r1 = -1))] at h
          by_cases hz : r1 ≠ 0
          · rw [if_pos hz] at h
            exact PErr.noConfusion (Except.error.inj h)
          · rw [if_neg hz] at h
            exact Except.noConfusion h
      · intro h
        exact absurd hl (h l (List.mem_cons_self l rest))
    · rw [parseFileText_skip l rest hl, ih]
      constructor
      · intro h g hg
        rcases List.mem_cons.mp hg with rfl | hg2
        · exact hl
        · exact h g hg2
      · intro h g hg
        exact h g (List.mem_cons_of_mem l hg)

/-- Witness for C6 (amended): a file with no `START-OF-FILE` at all fails
with `MissingFileStart`. -/
theorem parseFileText_mfs_iff_witness :
    parseFileText ["junk"] = .error .missingFileStart :=
  (parseFileText_mfs_iff ["junk"]).mpr (by decide)

/-! ### Claim C2 -/

/-- C2: a synthetic well-formed file with `K` declared fields and `M` data
rows, all of whose identifiers pass the checksum, parses successfully to
exactly those fields and the `M` zipped rows in file order. -/
theorem parse_roundtrip (fields : List String) (rows : List (List String))
    (hK : 0 < fields.length)
    (hf : ∀ f ∈ fields, pyStrip f = f ∧ f ≠ "END-OF-FIELDS")
    (hr : ∀ r ∈ rows, r.length = fields.length ∧ ∀ v ∈ r, '|' ∉ v.toList)
    (hid : ∀ r ∈ rows, checkFIGIDigit (r.getLastD "") = some true) :
    parseFileText (mkFile fields rows) =
      .ok (fields, rows.map (fun r => fields.zip r)) ∧
    (rows.map (fun r => fields.zip r)).length = rows.length := by
  constructor
  · rw [parseFileText_mkFile fields rows hf
      (fun r hr2 => ⟨(hr r hr2).1, by rw [(hr r hr2).1]; exact hK,
        (hr r hr2).2, ⟨true, hid r hr2⟩⟩)]
    rw [List.filter_eq_self.mpr (fun r hr2 => by rw [hid r hr2]; simp)]
  · simp

/-- Witness for C2 at a concrete two-field, one-row file. -/
theorem parse_roundtrip_witness :
    parseFileText (mkFile ["F1", "F2"] [["x", "000000000000"]]) =
      .ok (["F1", "F2"], [[("F1", "x"), ("F2", "000000000000")]]) := by
  have h := (parse_roundtrip ["F1", "F2"] [["x", "000000000000"]]
    (by decide) (by decide) (by decide) (by decide)).1
  exact h

/-! ### Claim C3 -/

/-- Refutes C3 as stated: a fields section declaring `A` twice parses
successfully — no `DuplicateFieldName` failure occurs and a result is
produced (at `END-OF-FIELDS` the source builds `dict(zip(fields, ...))`,
which silently collapses duplicates and raises nothing). -/
theorem duplicate_fields_cex :
    parseFileText ["START-OF-FILE", "START-OF-FIELDS", "A", "A",
      "END-OF-FIELDS", "START-OF-DATA", "END-OF-DATA"] =
      .ok (["A", "A"], []) := rfl

/-- C3 (amended): duplicate declared field names are accepted, not rejected:
the parse succeeds and `fields` keeps both occurrences. -/
theorem duplicate_fields_accepted (fields : List String)
    (hf : ∀ f ∈ fields, pyStrip f = f ∧ f ≠ "END-OF-FIELDS")
    (_hdup : ¬ fields.Nodup) :
    parseFileText (mkFile fields []) = .ok (fields, []) := by
  rw [parseFileText_mkFile fields [] hf (fun r hr => absurd hr (List.not_mem_nil r))]
  rfl

/-- Witness for C3 (amended) at the duplicate list `["A", "A"]`. -/
theorem duplicate_fields_accepted_witness :
    parseFileText (mkFile ["A", "A"] []) = .ok (["A", "A"], []) :=
  duplicate_fields_accepted ["A", "A"] (by decide) (by decide)

/-! ### Claim C8 -/

/-- C8: a data row whose candidate value count differs from the declared
field count makes the whole parse abort with the fatal field-count
exception, whatever rows follow; no result is produced. -/
theorem fieldCountMismatch_aborts (fields : List String)
    (good after : List (List String)) (bad : List String)
    (hK : 0 < fields.length)
    (hf : ∀ f ∈ fields, pyStrip f = f ∧ f ≠ "END-OF-FIELDS")
    (hgood : ∀ r ∈ good, r.length = fields.length ∧ (∀ v ∈ r, '|' ∉ v.toList) ∧
      ∃ b, checkFIGIDigit (r.getLastD "") = some b)
    (hbadlen : bad.length ≠ fields.length)
    (hbadp : ∀ v ∈ bad, '|' ∉ v.toList) :
    parseFileText (mkFile fields (good ++ bad :: after)) =
      .error .fieldCountMismatch := by
  unfold parseFileText mkFile
  simp only [List.cons_append, List.append_assoc, List.map_append, List.map_cons]
  rw [step_sof, step_sofields, parseLoop_fields [] fields [] _ hf,
    List.nil_append, step_eofields, step_sodata,
    parseLoop_data fields good [] _
      (fun r hr => ⟨(hgood r hr).1, by rw [(hgood r hr).1]; exact hK,
        (hgood r hr).2.1, (hgood r hr).2.2⟩),
    parseLoop_data_abort fields bad _ _ hbadlen hbadp]

/-- Witness for C8: a one-value row under two declared fields aborts the
parse even though a well-formed row follows. -/
theorem fieldCountMismatch_aborts_witness :
    parseFileText (mkFile ["F1", "F2"] [["x"], ["a", "b"]]) =
      .error .fieldCountMismatch :=
  fieldCountMismatch_aborts ["F1", "F2"] [] [["a", "b"]] ["x"]
    (by decide) (by decide) (fun r hr => absurd hr (List.not_mem_nil r))
    (by decide) (by decide)

/-! ### Claim C9 -/

/-- C9: in an otherwise well-formed file, the one data row whose identifier
fails the checksum is skipped, every other row is kept in order, and the row
count is the number of data lines minus one. -/
theorem bad_checksum_row_skipped (fields : List String)
    (good1 good2 : List (List String)) (bad : List String)
    (hK : 0 < fields.length)
    (hf : ∀ f ∈ fields, pyStrip f = f ∧ f ≠ "END-OF-FIELDS")
    (hr : ∀ r ∈ good1 ++ bad :: good2,
      r.length = fields.length ∧ ∀ v ∈ r, '|' ∉ v.toList)
    (hgood : ∀ r ∈ good1 ++ good2, checkFIGIDigit (r.getLastD "") = some true)
    (hbad : checkFIGIDigit (bad.getLastD "") = some false) :
    parseFileText (mkFile fields (good1 ++ bad :: good2)) =
      .ok (fields, (good1 ++ good2).map (fun r => fields.zip r)) ∧
    ((good1 ++ good2).map (fun r => fields.zip r)).length =
      (good1 ++ bad :: good2).length - 1 := by
  have hex : ∀ r ∈ good1 ++ bad :: good2,
      ∃ b, checkFIGIDigit (r.getLastD "") = some b := by
    intro r hmem
    rcases List.mem_append.mp hmem with h1 | h2
    · exact ⟨true, hgood r (List.mem_append.mpr (Or.inl h1))⟩
    · rcases List.mem_cons.mp h2 with rfl | h3
      · exact ⟨false, hbad⟩
      · exact ⟨true, hgood r (List.mem_append.mpr (Or.inr h3))⟩
  constructor
  · rw [parseFileText_mkFile fields (good1 ++ bad :: good2) hf
      (fun r hr2 => ⟨(hr r hr2).1, by rw [(hr r hr2).1]; exact hK,
        (hr r hr2).2, hex r hr2⟩)]
    rw [List.filter_append, List.filter_cons,
      if_neg (by rw [hbad]; simp),
      List.filter_eq_self.mpr (fun r hr2 => by
        rw [hgood r (List.mem_append.mpr (Or.inl hr2))]; simp),
      List.filter_eq_self.mpr (fun r hr2 => by
        rw [hgood r (List.mem_append.mpr (Or.inr hr2))]; simp)]
  · simp

/-- Witness for C9: of two data rows the one with a failing check digit is
dropped, the other kept. -/
theorem bad_checksum_row_skipped_witness :
    parseFileText (mkFile ["F"] [["000000000001"], ["000000000000"]]) =
      .ok (["F"], [[("F", "000000000000")]]) := by
  have h := (bad_checksum_row_skipped ["F"] [] [["000000000000"]]
    ["000000000001"] (by decide) (by decide) (by decide) (by decide)
    (by decide)).1
  exact h

/-! ### Claim C10 -/

theorem parseLoop_empty_candidate (d : List (List (String × String)))
    (rest : List String) :
    parseLoop 2 [] d (mkDataLine [] :: rest) = .error .indexError := rfl

/-- C10: with an empty declared field list, a data line with an empty
candidate value sequence passes the `0 = 0` count check and then crashes
with an uncaught `IndexError` from `datarow[-1]`; no result, `Rejected`
diagnostic or taxonomy error is produced. -/
theorem empty_fields_indexError (rows : List (List String)) :
    parseFileText (mkFile [] ([] :: rows)) = .error .indexError := by
  unfold parseFileText mkFile
  simp only [List.cons_append, List.append_assoc, List.map_cons, List.nil_append]
  rw [step_sof, step_sofields, step_eofields, step_sodata,
    parseLoop_empty_candidate]

/-! ### Claim C1 (witness) -/

/-- Witness for C1: the all-zero body has check digit `0`, so the identifier
`000000000000` validates. -/
theorem checkFIGIDigit_correct_witness :
    checkFIGIDigit "000000000000" = some true := by
  have h := checkFIGIDigit_correct "000000000000" (by decide) (by decide)
  apply h.mpr
  rw [specCheckDigit_eq_digitSum]
  decide

/-! ### Claim C4 -/

/-- C4: the source computes the full list of requested-but-undeclared
columns, but the `raise Exception('...' + [offenders])` line concatenates a
`str` with a `list`, which itself raises `TypeError` — so the escaping
exception does not carry the offender list, although that list
(`offendingColumns`) does name every offender. -/
theorem getDataForFields_unknown_crashes :
    getDataForFields ["A"] [] ["Unknown1", "Unknown2"] = .error .typeError ∧
    offendingColumns ["A"] ["Unknown1", "Unknown2"] = ["Unknown1", "Unknown2"] :=
  ⟨rfl, rfl⟩

/-! ### Claim C5 -/

/-- Refutes C5 as stated: `a00000000000` is 12 characters with a lowercase
letter, and the validator does not return `False` on it — the
`figiAlphaNumMap[ch]` lookup raises an uncaught `KeyError`. -/
theorem lowercase_crash_cex :
    checkFIGIDigit "a00000000000" = none ∧
    "a00000000000".toList.length = 12 ∧
    'a' ∈ "a00000000000".toList ∧ 'a'.isLower = true := by
  decide

/-- C5 (amended): on a 12-character input containing a lowercase letter the
validator returns `False` only when the string has a non-alphanumeric
character or the lowercase letters sit solely in the last position; a
lowercase letter among the first 11 characters of an all-alphanumeric string
raises an uncaught `KeyError` instead. -/
theorem checkFIGIDigit_lowercase (s : String)
    (h12 : s.toList.length = 12)
    (hlow : ∃ c ∈ s.toList, c.isLower = true) :
    checkFIGIDigit s =
      if pyIsAlnum s.toList && s.toList.dropLast.any Char.isLower then none
      else some false := by
  obtain ⟨c, hcmem, hclow⟩ := hlow
  unfold checkFIGIDigit
  rw [if_neg (show ¬(s.toList.length ≠ 12) from fun hx => hx h12)]
  cases halnum : pyIsAlnum s.toList with
  | false => simp
  | true =>
    rw [if_neg (by simp : ¬(¬true = true))]
    dsimp only
    rcases Bool.eq_false_or_eq_true (s.toList.dropLast.any Char.isLower) with
      hany | hany
    · obtain ⟨d, hdmem, hdlow⟩ := List.any_eq_true.mp hany
      rw [mapCharVals_none_of_lower _ d hdmem hdlow]
      dsimp only
      simp only [hany]
      rfl
    · have hall : ∀ e ∈ s.toList, e.isAlphanum = true := by
        have h2 : s.toList.all Char.isAlphanum = true := by
          have h3 := halnum
          unfold pyIsAlnum at h3
          simp only [Bool.and_eq_true] at h3
          exact h3.2
        exact fun e he => List.all_eq_true.mp h2 e he
      have hupper : ∀ e ∈ s.toList.dropLast,
          e.isDigit = true ∨ ('A' ≤ e ∧ e ≤ 'Z') := by
        intro e hemem
        have helow : e.isLower = false := by
          cases he : e.isLower
          · rfl
          · exact absurd he (List.any_eq_false.mp hany e hemem)
        exact digit_or_upper_of_alnum_not_lower e
          (hall e (List.dropLast_subset _ hemem)) helow
      rw [mapCharVals_eq_spec _ hupper]
      dsimp only
      simp only [hany, Bool.and_false]
      show _ = (some false : Option Bool)
      congr 1
      have hsne : s.toList ≠ [] := by
        intro hcon2
        rw [hcon2] at h12
        cases h12
      have hnotdrop : c ∉ s.toList.dropLast := by
        intro hcd
        exact absurd hclow (List.any_eq_false.mp hany c hcd)
      have hcl : c = s.toList.getLast hsne := by
        have hsplit := List.dropLast_append_getLast hsne
        have hmem2 : c ∈ s.toList.dropLast ++ [s.toList.getLast hsne] := by
          rw [hsplit]
          exact hcmem
        rcases List.mem_append.mp hmem2 with h1 | h2
        · exact absurd h1 hnotdrop
        · simpa using h2
      have hlast : (s.toList.getLastD ' ').isLower = true := by
        rw [List.getLastD_eq_getLast?, List.getLast?_eq_getLast _ hsne]
        rw [show (some (s.toList.getLast hsne)).getD ' ' =
          s.toList.getLast hsne from rfl, ← hcl]
        exact hclow
      exact decide_eq_false (digitChar_ne_lower _ (ten_sub_emod_lt _) _ hlast)

/-- Witness for C5 (amended): with the lowercase letter only in the last
position of an alphanumeric string, the comparison fails and `False` is
returned. -/
theorem checkFIGIDigit_lowercase_witness :
    checkFIGIDigit "00000000000z" = some false := by
  have h := checkFIGIDigit_lowercase "00000000000z" (by decide)
    ⟨'z', by decide, by decide⟩
  rw [h]
  decide

/-! ### Claim C7 -/

/-- Refutes C7 as stated: on the data line `a|b|c|v1|v2`, which does not end
in the delimiter, the decoder's candidate sequence is `["v1"]` — the final
value token `v2` is lost — while the spec's reading keeps both. -/
theorem candidate_drops_last_cex :
    candidateValues "a|b|c|v1|v2" = ["v1"] ∧
    specCandidate "a|b|c|v1|v2" = ["v1", "v2"] ∧
    candidateValues "a|b|c|v1|v2" ≠ specCandidate "a|b|c|v1|v2" := by
  decide

/-- C7 (amended): the candidate value sequence is the pipe-split tokens with
the first three discarded and the last remaining token discarded
unconditionally — so whenever any tokens remain after the metadata, the
candidate sequence is strictly shorter than those tokens, and on a line not
ending in the delimiter the final value token is lost. -/
theorem candidateValues_drops_last (line : String) :
    candidateValues line = ((pySplit '|' line).drop 3).dropLast ∧
    ((pySplit '|' line).drop 3 ≠ [] →
      candidateValues line ≠ (pySplit '|' line).drop 3) := by
  have h1 : candidateValues line = ((pySplit '|' line).drop 3).dropLast := by
    unfold candidateValues
    rw [List.dropLast_eq_take]
  refine ⟨h1, fun hne hcon => ?_⟩
  rw [h1] at hcon
  have hlens := congrArg List.length hcon
  rw [List.length_dropLast] at hlens
  have hpos : 0 < ((pySplit '|' line).drop 3).length := List.length_pos.mpr hne
  omega

/-- Witness for C7 (amended) at the line `a|b|c|v1|v2`. -/
theorem candidateValues_drops_last_witness :
    candidateValues "a|b|c|v1|v2" = ["v1"] ∧
    candidateValues "a|b|c|v1|v2" ≠ ["v1", "v2"] := by
  have h := candidateValues_drops_last "a|b|c|v1|v2"
  have e : (pySplit '|' "a|b|c|v1|v2").drop 3 = ["v1", "v2"] := by decide
  constructor
  · rw [h.1, e]
    rfl
  · have h2 := h.2 (by rw [e]; simp)
    rw [e] at h2
    exact h2

end PrefUpdate
